import Mathlib

/-!
Verification of the dovecot-core storage/sync components against their
natural-language specification.  The C sources embedded here are:

* `src/lib-index/mail-index-util.c` — offset marker codec, varint codec,
  sequence-record array;
* `src/lib-storage/index/maildir/maildir-sync.c` — maildir synchronization
  (quick check, directory scanner entry points, duplicate fixing, sync run);
* `src/doveadm/doveadm-mail-mailbox-cache.c` — cache decision admin command.

Machine integers are modelled as `Nat` with explicit `% 2^32` where 32-bit
wrap-around matters; `time_t`/signed comparisons use `Int` casts.
-/

namespace Dovecot

/-! ### Generic bit-twiddling helper lemmas -/

/-- Disjoint OR is addition: a value below `2^k` OR'd with a `k`-shifted value
is just their sum. -/
theorem lor_shl_eq_add {a : Nat} (b k : Nat) (h : a < 2 ^ k) :
    a ||| (b <<< k) = 2 ^ k * b + a := by
  apply Nat.eq_of_testBit_eq
  intro i
  rcases Nat.lt_or_ge i k with hik | hik
  · have hb : Nat.testBit (2 ^ k * b + a) i = Nat.testBit a i := by
      rw [Nat.testBit_mul_pow_two_add b h i, if_pos hik]
    simp [Nat.testBit_or, Nat.testBit_shiftLeft, hb, Nat.not_le.mpr hik]
  · have ha : Nat.testBit a i = false :=
      Nat.testBit_lt_two_pow (Nat.lt_of_lt_of_le h (Nat.pow_le_pow_right (by omega) hik))
    have hb : Nat.testBit (2 ^ k * b + a) i = Nat.testBit b (i - k) := by
      rw [Nat.testBit_mul_pow_two_add b h i, if_neg (Nat.not_lt.mpr hik)]
    simp [Nat.testBit_or, Nat.testBit_shiftLeft, ha, hb, hik]

/-- AND with a shifted mask commutes with extracting the shifted field. -/
theorem and_mask_shl (x m j : Nat) :
    x &&& (m <<< j) = ((x >>> j) &&& m) <<< j := by
  apply Nat.eq_of_testBit_eq
  intro i
  rcases Nat.lt_or_ge i j with hij | hij
  · simp [Nat.testBit_and, Nat.testBit_shiftLeft, Nat.not_le.mpr hij]
  · simp [Nat.testBit_and, Nat.testBit_shiftLeft, Nat.testBit_shiftRight, hij,
      Nat.add_sub_cancel' hij, Bool.and_comm]

/-- Left shift distributes over OR. -/
theorem lor_shl (a b j : Nat) : (a ||| b) <<< j = (a <<< j) ||| (b <<< j) := by
  apply Nat.eq_of_testBit_eq
  intro i
  rcases Nat.lt_or_ge i j with hij | hij
  · simp [Nat.testBit_or, Nat.testBit_shiftLeft, Nat.not_le.mpr hij]
  · simp [Nat.testBit_or, Nat.testBit_shiftLeft, hij]

/-- Shifting left then right by the same amount is the identity. -/
theorem shl_shr_cancel (y j : Nat) : (y <<< j) >>> j = y := by
  rw [Nat.shiftLeft_eq, Nat.shiftRight_eq_div_pow,
    Nat.mul_div_cancel _ (Nat.two_pow_pos j)]

theorem and_127 (x : Nat) : x &&& 127 = x % 128 := by
  have h := Nat.and_pow_two_sub_one_eq_mod x 7
  norm_num at h
  exact h

theorem and_255 (x : Nat) : x &&& 255 = x % 256 := by
  have h := Nat.and_pow_two_sub_one_eq_mod x 8
  norm_num at h
  exact h

/-! ### Offset marker codec (`src/lib-index/mail-index-util.c`)

The codec byte-swaps through `cpu32_to_be`/`be32_to_cpu`.  We model a
little-endian host, where both macros are the 32-bit byte swap; the
composition `be32_to_cpu (cpu32_to_be x) = x` holds on either endianness,
so the modelled behaviour of the encode/decode pair is endian-independent. -/

/-- 32-bit byte swap (shift/mask formulation of the usual macro). -/
def byteswap32 (x : Nat) : Nat :=
  ((x &&& 0xff) <<< 24) ||| ((x &&& 0xff00) <<< 8) |||
  ((x &&& 0xff0000) >>> 8) ||| ((x &&& 0xff000000) >>> 24)

def cpu32_to_be (x : Nat) : Nat := byteswap32 x

def be32_to_cpu (x : Nat) : Nat := byteswap32 x

/-- `mail_index_uint32_to_offset`: the caller must pass a 4-aligned offset
below `2^30` (asserted in C); each of the four output bytes carries 7 bits
of `offset >> 2` and has its top bit set.  (The C local `offset >>= 2` is
inlined as `offset >>> 2`.) -/
def mail_index_uint32_to_offset (offset : Nat) : Nat :=
  cpu32_to_be
    (0x00000080 ||| ((offset >>> 2) &&& 0x0000007f) |||
     0x00008000 ||| ((((offset >>> 2) &&& 0x00003f80) >>> 7) <<< 8) |||
     0x00800000 ||| ((((offset >>> 2) &&& 0x001fc000) >>> 14) <<< 16) |||
     0x80000000 ||| ((((offset >>> 2) &&& 0x0fe00000) >>> 21) <<< 24))

/-- `mail_index_offset_to_uint32`: returns 0 unless all four bytes have
their high bit set, otherwise reassembles the 28 payload bits times 4.
(The C local `offset = be32_to_cpu(offset)` is inlined.) -/
def mail_index_offset_to_uint32 (offset : Nat) : Nat :=
  if be32_to_cpu offset &&& 0x80808080 ≠ 0x80808080 then 0
  else
    ((be32_to_cpu offset &&& 0x0000007f) |||
     (((be32_to_cpu offset &&& 0x00007f00) >>> 8) <<< 7) |||
     (((be32_to_cpu offset &&& 0x007f0000) >>> 16) <<< 14) |||
     (((be32_to_cpu offset &&& 0x7f000000) >>> 24) <<< 21)) <<< 2

/-! Auxiliary facts about the codec's bit fields. -/

theorem shl_shr_of_le (a j k : Nat) (h : k ≤ j) : (a <<< j) >>> k = a <<< (j - k) := by
  conv_lhs => rw [show j = (j - k) + k by omega, Nat.shiftLeft_add]
  exact shl_shr_cancel _ _

theorem and_1 (x : Nat) : x &&& 1 = x % 2 := Nat.and_one_is_mod x

theorem and_128 (y : Nat) : y &&& 128 = y / 128 % 2 * 128 := by
  conv_lhs => rw [show (128 : Nat) = 1 <<< 7 from rfl]
  rw [and_mask_shl, and_1, Nat.shiftRight_eq_div_pow, Nat.shiftLeft_eq]

theorem and_bit7_shl (o k : Nat) :
    o &&& (128 <<< k) = (o / 2 ^ k / 128 % 2 * 128) <<< k := by
  rw [and_mask_shl, and_128, Nat.shiftRight_eq_div_pow]

/-- Assembling four bytes little-endian, expressed arithmetically. -/
theorem bytes_to_num (w0 w1 w2 w3 : Nat)
    (h0 : w0 < 2 ^ 8) (h1 : w1 < 2 ^ 8) (h2 : w2 < 2 ^ 8) :
    w0 ||| ((w1 <<< 8) ||| ((w2 <<< 16) ||| (w3 <<< 24))) =
      w0 + 256 * w1 + 65536 * w2 + 16777216 * w3 := by
  have s24 : w3 <<< 24 = (w3 <<< 8) <<< 16 := by rw [← Nat.shiftLeft_add]
  rw [s24, ← lor_shl, lor_shl_eq_add _ 8 h2]
  rw [show (2 ^ 8 * w3 + w2) <<< 16 = ((2 ^ 8 * w3 + w2) <<< 8) <<< 8 by
    rw [← Nat.shiftLeft_add]]
  rw [← lor_shl, lor_shl_eq_add _ 8 h1, lor_shl_eq_add _ 8 h0]
  ring

/-- Same assembly, in the source's left-associated descending order. -/
theorem bytes_to_num_rev (w0 w1 w2 w3 : Nat)
    (h0 : w0 < 2 ^ 8) (h1 : w1 < 2 ^ 8) (h2 : w2 < 2 ^ 8) :
    (w3 <<< 24) ||| (w2 <<< 16) ||| (w1 <<< 8) ||| w0 =
      w0 + 256 * w1 + 65536 * w2 + 16777216 * w3 := by
  have hrev : ∀ A B C D : Nat, ((A ||| B) ||| C) ||| D = D ||| (C ||| (B ||| A)) := by
    intro A B C D
    rw [Nat.lor_comm A B, Nat.lor_comm (B ||| A) C, Nat.lor_comm (C ||| (B ||| A)) D]
  rw [hrev]
  exact bytes_to_num w0 w1 w2 w3 h0 h1 h2

/-- The byte swap, characterised arithmetically byte by byte. -/
theorem byteswap32_bytes (x : Nat) :
    byteswap32 x = x / 16777216 % 256 + 256 * (x / 65536 % 256) +
      65536 * (x / 256 % 256) + 16777216 * (x % 256) := by
  have p0 : x &&& 0xff = x % 256 := and_255 x
  have p1 : x &&& 0xff00 = (x / 256 % 256) <<< 8 := by
    rw [show (0xff00 : Nat) = 255 <<< 8 from rfl, and_mask_shl, and_255,
      Nat.shiftRight_eq_div_pow]
  have p2 : x &&& 0xff0000 = (x / 65536 % 256) <<< 16 := by
    rw [show (0xff0000 : Nat) = 255 <<< 16 from rfl, and_mask_shl, and_255,
      Nat.shiftRight_eq_div_pow]
  have p3 : x &&& 0xff000000 = (x / 16777216 % 256) <<< 24 := by
    rw [show (0xff000000 : Nat) = 255 <<< 24 from rfl, and_mask_shl, and_255,
      Nat.shiftRight_eq_div_pow]
  have q1 : ((x / 256 % 256) <<< 8) <<< 8 = (x / 256 % 256) <<< 16 := by
    rw [← Nat.shiftLeft_add]
  have q2 : ((x / 65536 % 256) <<< 16) >>> 8 = (x / 65536 % 256) <<< 8 := by
    rw [shl_shr_of_le _ 16 8 (by omega)]
  have q3 : ((x / 16777216 % 256) <<< 24) >>> 24 = x / 16777216 % 256 :=
    shl_shr_cancel _ _
  unfold byteswap32
  rw [p0, p1, p2, p3, q1, q2, q3]
  exact bytes_to_num_rev _ _ _ _ (by omega) (by omega) (by omega)

/-- Field extraction: the masked-and-shifted chunks used by the codec. -/
theorem extract_chunk (o m j : Nat) (hm : m = 127 <<< j) :
    (o &&& m) >>> j = o / 2 ^ j % 128 := by
  subst hm
  rw [and_mask_shl, shl_shr_cancel, and_127, Nat.shiftRight_eq_div_pow]

theorem merge_bit7 (y : Nat) (hy : y < 128) : y ||| 128 = 128 + y := by
  conv_lhs => rw [show (128 : Nat) = 1 <<< 7 from rfl]
  rw [lor_shl_eq_add 1 7 (by omega)]
  norm_num

theorem lor_left_comm (x y z : Nat) : x ||| (y ||| z) = y ||| (x ||| z) := by
  rw [← Nat.lor_assoc, Nat.lor_comm x y, Nat.lor_assoc]

/-- The value the encoder byte-swaps, as an arithmetic four-byte word. -/
theorem marker_word_eq (a b c d : Nat)
    (ha : a < 128) (hb : b < 128) (hc : c < 128) (hd : d < 128) :
    0x80 ||| a ||| 0x8000 ||| (b <<< 8) ||| 0x800000 ||| (c <<< 16) |||
      0x80000000 ||| (d <<< 24) =
      (128 + a) + 256 * (128 + b) + 65536 * (128 + c) + 16777216 * (128 + d) := by
  have reorder : ∀ A B C D : Nat,
      (0x80 : Nat) ||| A ||| 0x8000 ||| B ||| 0x800000 ||| C ||| 0x80000000 ||| D =
      (A ||| 0x80) ||| ((B ||| 0x8000) ||| ((C ||| 0x800000) ||| (D ||| 0x80000000))) := by
    intro A B C D
    simp only [Nat.lor_assoc, Nat.lor_comm, lor_left_comm]
  rw [reorder]
  conv_lhs =>
    rw [show (0x8000 : Nat) = 128 <<< 8 from rfl,
      show (0x800000 : Nat) = 128 <<< 16 from rfl,
      show (0x80000000 : Nat) = 128 <<< 24 from rfl]
  rw [← lor_shl, ← lor_shl, ← lor_shl,
    merge_bit7 a ha, merge_bit7 b hb, merge_bit7 c hc, merge_bit7 d hd]
  exact bytes_to_num _ _ _ _ (by omega) (by omega) (by omega)

/-- A word whose four bytes all have the top bit set passes the marker test. -/
theorem marker_mask_eq (W : Nat)
    (h0 : 128 ≤ W % 256) (h1 : 128 ≤ W / 256 % 256)
    (h2 : 128 ≤ W / 65536 % 256) (h3 : 128 ≤ W / 16777216 % 256) :
    W &&& 0x80808080 = 0x80808080 := by
  have g0 : W / 128 % 2 = 1 := by omega
  have g1 : W / 2 ^ 8 / 128 % 2 = 1 := by omega
  have g2 : W / 2 ^ 16 / 128 % 2 = 1 := by omega
  have g3 : W / 2 ^ 24 / 128 % 2 = 1 := by omega
  conv_lhs =>
    rw [show (0x80808080 : Nat) =
      128 ||| ((128 <<< 8) ||| ((128 <<< 16) ||| (128 <<< 24))) from rfl]
  rw [Nat.and_or_distrib_left, Nat.and_or_distrib_left, Nat.and_or_distrib_left,
    and_128, and_bit7_shl, and_bit7_shl, and_bit7_shl, g0, g1, g2, g3]
  norm_num [bytes_to_num 128 128 128 128 (by norm_num) (by norm_num) (by norm_num)]

/-- Byte-swapping a word with given bytes reverses the byte order. -/
theorem byteswap_rev (e0 e1 e2 e3 V : Nat)
    (h0 : e0 < 128) (h1 : e1 < 128) (h2 : e2 < 128) (h3 : e3 < 128)
    (hV : V = (128 + e3) + 256 * (128 + e2) + 65536 * (128 + e1) +
      16777216 * (128 + e0)) :
    byteswap32 V = (128 + e0) + 256 * (128 + e1) + 65536 * (128 + e2) +
      16777216 * (128 + e3) := by
  rw [byteswap32_bytes]
  omega

/-- Decoding the byte-swapped marker word recovers the 28 payload bits. -/
theorem marker_decode_word (W e0 e1 e2 e3 : Nat)
    (h0 : e0 < 128) (h1 : e1 < 128) (h2 : e2 < 128) (h3 : e3 < 128)
    (hw : W = (128 + e0) + 256 * (128 + e1) + 65536 * (128 + e2) +
      16777216 * (128 + e3)) :
    mail_index_offset_to_uint32 (byteswap32 W) =
      (e0 + 128 * e1 + 16384 * e2 + 2097152 * e3) * 4 := by
  have hb0 : W % 256 = 128 + e0 := by omega
  have hb1 : W / 256 % 256 = 128 + e1 := by omega
  have hb2 : W / 65536 % 256 = 128 + e2 := by omega
  have hb3 : W / 16777216 % 256 = 128 + e3 := by omega
  have hs1 : byteswap32 W =
      (128 + e3) + 256 * (128 + e2) + 65536 * (128 + e1) + 16777216 * (128 + e0) :=
    byteswap_rev e3 e2 e1 e0 W h3 h2 h1 h0 hw
  have hs2 : byteswap32 (byteswap32 W) = W := by
    rw [hs1, byteswap_rev e0 e1 e2 e3 _ h0 h1 h2 h3 rfl]
    omega
  unfold mail_index_offset_to_uint32 be32_to_cpu
  rw [hs2]
  have hmask : W &&& 0x80808080 = 0x80808080 :=
    marker_mask_eq W (by omega) (by omega) (by omega) (by omega)
  rw [if_neg (by simp [hmask])]
  have p0 : W &&& 0x7f = e0 := by
    rw [and_127]
    omega
  have p1 : (W &&& 0x7f00) >>> 8 = e1 := by
    rw [extract_chunk _ _ _ (show (0x7f00 : Nat) = 127 <<< 8 from rfl)]
    omega
  have p2 : (W &&& 0x7f0000) >>> 16 = e2 := by
    rw [extract_chunk _ _ _ (show (0x7f0000 : Nat) = 127 <<< 16 from rfl)]
    omega
  have p3 : (W &&& 0x7f000000) >>> 24 = e3 := by
    rw [extract_chunk _ _ _ (show (0x7f000000 : Nat) = 127 <<< 24 from rfl)]
    omega
  rw [p0, p1, p2, p3,
    lor_shl_eq_add e1 7 (show e0 < 2 ^ 7 by omega),
    lor_shl_eq_add e2 14 (show 2 ^ 7 * e1 + e0 < 2 ^ 14 by omega),
    lor_shl_eq_add e3 21
      (show 2 ^ 14 * e2 + (2 ^ 7 * e1 + e0) < 2 ^ 21 by omega),
    Nat.shiftLeft_eq]
  try omega

/-- Round-trip of the offset marker codec on aligned offsets below `2^30`. -/
theorem offset_roundtrip_aux (offset : Nat)
    (h30 : offset < 0x40000000) (h4 : offset % 4 = 0) :
    mail_index_offset_to_uint32 (mail_index_uint32_to_offset offset) = offset := by
  have ho : offset >>> 2 = offset / 4 := by
    rw [Nat.shiftRight_eq_div_pow]
  have hA : (offset >>> 2) &&& 0x7f = offset / 4 % 128 := by
    rw [ho, and_127]
  have hB : ((offset >>> 2) &&& 0x3f80) >>> 7 = offset / 4 / 128 % 128 := by
    rw [ho, extract_chunk _ _ _ (show (0x3f80 : Nat) = 127 <<< 7 from rfl)]
    try norm_num
  have hC : ((offset >>> 2) &&& 0x1fc000) >>> 14 = offset / 4 / 16384 % 128 := by
    rw [ho, extract_chunk _ _ _ (show (0x1fc000 : Nat) = 127 <<< 14 from rfl)]
    try norm_num
  have hD : ((offset >>> 2) &&& 0xfe00000) >>> 21 = offset / 4 / 2097152 % 128 := by
    rw [ho, extract_chunk _ _ _ (show (0xfe00000 : Nat) = 127 <<< 21 from rfl)]
    try norm_num
  have henc : mail_index_uint32_to_offset offset =
      byteswap32 ((128 + offset / 4 % 128) + 256 * (128 + offset / 4 / 128 % 128) +
        65536 * (128 + offset / 4 / 16384 % 128) +
        16777216 * (128 + offset / 4 / 2097152 % 128)) := by
    unfold mail_index_uint32_to_offset cpu32_to_be
    rw [hA, hB, hC, hD,
      marker_word_eq _ _ _ _ (by omega) (by omega) (by omega) (by omega)]
  rw [henc, marker_decode_word _ _ _ _ _ (by omega) (by omega) (by omega) (by omega) rfl]
  omega

/-- The masked word `W &&& 0x80808080`, computed arithmetically. -/
theorem and_mask_word (W : Nat) :
    W &&& 0x80808080 =
      (W / 128 % 2) * 128 + 256 * ((W / 2 ^ 8 / 128 % 2) * 128) +
      65536 * ((W / 2 ^ 16 / 128 % 2) * 128) +
      16777216 * ((W / 2 ^ 24 / 128 % 2) * 128) := by
  conv_lhs =>
    rw [show (0x80808080 : Nat) =
      128 ||| ((128 <<< 8) ||| ((128 <<< 16) ||| (128 <<< 24))) from rfl]
  rw [Nat.and_or_distrib_left, Nat.and_or_distrib_left, Nat.and_or_distrib_left,
    and_128, and_bit7_shl, and_bit7_shl, and_bit7_shl,
    bytes_to_num _ _ _ _ (by omega) (by omega) (by omega)]

/-- Byteswap expressed on a four-byte decomposition. -/
theorem byteswap_of_bytes (t0 t1 t2 t3 x : Nat)
    (h0 : t0 < 256) (h1 : t1 < 256) (h2 : t2 < 256) (h3 : t3 < 256)
    (hx : x = t0 + 256 * t1 + 65536 * t2 + 16777216 * t3) :
    byteswap32 x = t3 + 256 * t2 + 65536 * t1 + 16777216 * t0 := by
  rw [byteswap32_bytes]
  omega

/-- The marker-mask test on a four-byte decomposition. -/
theorem and_mask_word_of_bytes (w0 w1 w2 w3 W : Nat)
    (h0 : w0 < 256) (h1 : w1 < 256) (h2 : w2 < 256) (h3 : w3 < 256)
    (hW : W = w0 + 256 * w1 + 65536 * w2 + 16777216 * w3) :
    W &&& 0x80808080 = (w0 / 128) * 128 + 256 * ((w1 / 128) * 128) +
      65536 * ((w2 / 128) * 128) + 16777216 * ((w3 / 128) * 128) := by
  rw [and_mask_word]
  have b0 : W / 128 % 2 = w0 / 128 := by omega
  have b1 : W / 2 ^ 8 / 128 % 2 = w1 / 128 := by omega
  have b2 : W / 2 ^ 16 / 128 % 2 = w2 / 128 := by omega
  have b3 : W / 2 ^ 24 / 128 % 2 = w3 / 128 := by omega
  rw [b0, b1, b2, b3]

/-- Any token with one top byte bit clear is rejected by the decoder. -/
theorem offset_invalid_aux (token : Nat) (h32 : token < 4294967296)
    (hbad : token % 256 < 128 ∨ token / 256 % 256 < 128 ∨
      token / 65536 % 256 < 128 ∨ token / 16777216 % 256 < 128) :
    mail_index_offset_to_uint32 token = 0 := by
  obtain ⟨t0, t1, t2, t3, ht0, ht1, ht2, ht3, htok⟩ :
      ∃ t0 t1 t2 t3, t0 < 256 ∧ t1 < 256 ∧ t2 < 256 ∧ t3 < 256 ∧
        token = t0 + 256 * t1 + 65536 * t2 + 16777216 * t3 :=
    ⟨token % 256, token / 256 % 256, token / 65536 % 256, token / 16777216,
      by omega, by omega, by omega, by omega, by omega⟩
  have hbad' : t0 < 128 ∨ t1 < 128 ∨ t2 < 128 ∨ t3 < 128 := by
    rcases hbad with h | h | h | h
    · exact Or.inl (by omega)
    · exact Or.inr (Or.inl (by omega))
    · exact Or.inr (Or.inr (Or.inl (by omega)))
    · exact Or.inr (Or.inr (Or.inr (by omega)))
  have hS : byteswap32 token = t3 + 256 * t2 + 65536 * t1 + 16777216 * t0 :=
    byteswap_of_bytes t0 t1 t2 t3 token ht0 ht1 ht2 ht3 htok
  have hmaskval := and_mask_word_of_bytes t3 t2 t1 t0 (byteswap32 token)
    ht3 ht2 ht1 ht0 hS
  have hneq : byteswap32 token &&& 0x80808080 ≠ 0x80808080 := by
    rw [hmaskval]
    clear hS hmaskval htok hbad h32
    rcases hbad' with h | h | h | h <;> omega
  unfold mail_index_offset_to_uint32 be32_to_cpu
  rw [if_pos hneq]

/-- The decoder's output is always 4-aligned and below `2^30`. -/
theorem offset_to_uint32_bound (token : Nat) :
    mail_index_offset_to_uint32 token % 4 = 0 ∧
    mail_index_offset_to_uint32 token < 0x40000000 := by
  unfold mail_index_offset_to_uint32 be32_to_cpu
  by_cases hc : byteswap32 token &&& 0x80808080 ≠ 0x80808080
  · rw [if_pos hc]
    exact ⟨rfl, by norm_num⟩
  · rw [if_neg hc]
    have b0 : byteswap32 token &&& 0x7f ≤ 127 := Nat.and_le_right
    have e1 : (byteswap32 token &&& 0x7f00) >>> 8 =
        byteswap32 token / 2 ^ 8 % 128 :=
      extract_chunk _ _ _ (show (0x7f00 : Nat) = 127 <<< 8 from rfl)
    have e2 : (byteswap32 token &&& 0x7f0000) >>> 16 =
        byteswap32 token / 2 ^ 16 % 128 :=
      extract_chunk _ _ _ (show (0x7f0000 : Nat) = 127 <<< 16 from rfl)
    have e3 : (byteswap32 token &&& 0x7f000000) >>> 24 =
        byteswap32 token / 2 ^ 24 % 128 :=
      extract_chunk _ _ _ (show (0x7f000000 : Nat) = 127 <<< 24 from rfl)
    rw [e1, e2, e3]
    have hB : (byteswap32 token / 2 ^ 8 % 128) <<< 7 < 2 ^ 28 := by
      rw [Nat.shiftLeft_eq]
      omega
    have hC : (byteswap32 token / 2 ^ 16 % 128) <<< 14 < 2 ^ 28 := by
      rw [Nat.shiftLeft_eq]
      omega
    have hD : (byteswap32 token / 2 ^ 24 % 128) <<< 21 < 2 ^ 28 := by
      rw [Nat.shiftLeft_eq]
      omega
    have hP : (byteswap32 token &&& 0x7f) |||
        ((byteswap32 token / 2 ^ 8 % 128) <<< 7) |||
        ((byteswap32 token / 2 ^ 16 % 128) <<< 14) |||
        ((byteswap32 token / 2 ^ 24 % 128) <<< 21) < 2 ^ 28 :=
      Nat.or_lt_two_pow
        (Nat.or_lt_two_pow
          (Nat.or_lt_two_pow (by omega) hB) hC) hD
    rw [Nat.shiftLeft_eq]
    omega

/-- C1: for every offset that is a multiple of 4 and strictly below `2^30`,
decoding the 4-byte marker produced by `mail_index_uint32_to_offset` with
`mail_index_offset_to_uint32` returns the original offset; and for every
4-byte value in which at least one of the four bytes has its top bit clear,
`mail_index_offset_to_uint32` returns 0 rather than an error. -/
theorem C1_offset_marker_codec (offset token : Nat)
    (hoff : offset < 0x40000000) (hal : offset % 4 = 0)
    (htok : token < 4294967296)
    (hbad : token % 256 < 128 ∨ token / 256 % 256 < 128 ∨
      token / 65536 % 256 < 128 ∨ token / 16777216 % 256 < 128) :
    mail_index_offset_to_uint32 (mail_index_uint32_to_offset offset) = offset ∧
    mail_index_offset_to_uint32 token = 0 :=
  ⟨offset_roundtrip_aux offset hoff hal, offset_invalid_aux token htok hbad⟩

/-- Witness for C1 at `offset = 4` and `token = 291` (low byte 35 < 128). -/
theorem C1_offset_marker_codec_witness :
    mail_index_offset_to_uint32 (mail_index_uint32_to_offset 4) = 4 ∧
    mail_index_offset_to_uint32 291 = 0 :=
  C1_offset_marker_codec 4 291 (by decide) (by decide) (by decide)
    (Or.inl (by decide))

/-- C10: for every 32-bit input token, `mail_index_offset_to_uint32` returns
a value that is a multiple of 4 and strictly below `2^30` — exactly the
preconditions `mail_index_uint32_to_offset` asserts, so a decoded offset can
always be re-encoded. -/
theorem C10_decoded_offset_reencodable (token : Nat) :
    mail_index_offset_to_uint32 token % 4 = 0 ∧
    mail_index_offset_to_uint32 token < 0x40000000 :=
  offset_to_uint32_bound token

/-! ### Varint codec (`mail_index_pack_num` / `mail_index_unpack_num`)

Encoded buffers are modelled as `List Nat` of byte values.  The C decoder
accumulates into a `uint32_t`, so the shifted chunk is truncated with an
explicit `% 2^32`. -/

/-- `mail_index_pack_num`: base-128 varint, low 7 bits first, continuation
flagged by the high bit. -/
def mail_index_pack_num (num : Nat) : List Nat :=
  if _h : 0x80 ≤ num then
    ((num &&& 0x7f) ||| 0x80) :: mail_index_pack_num (num >>> 7)
  else [num]
decreasing_by
  rw [Nat.shiftRight_eq_div_pow]
  omega

/-- Outcome of `mail_index_unpack_num`: success with the rest of the buffer
and the decoded value, or one of the two distinct failure paths of the C
code (EOF reached before the terminating byte; `bits >= 32` after it). -/
inductive UnpackResult where
  | ok (rest : List Nat) (value : Nat)
  | truncated
  | overflow
deriving DecidableEq, Repr

/-- The decoding loop of `mail_index_unpack_num` (cursor/end become the
remaining byte list; `value`/`bits` are the C locals). -/
def unpack_loop : List Nat → Nat → Nat → UnpackResult
  | [], _, _ => UnpackResult.truncated
  | c :: rest, value, bits =>
    if c < 0x80 then
      if 32 ≤ bits then UnpackResult.overflow
      else UnpackResult.ok rest (value ||| (((c &&& 0x7f) <<< bits) % 4294967296))
    else unpack_loop rest (value ||| (((c &&& 0x7f) <<< bits) % 4294967296)) (bits + 7)

def mail_index_unpack_num (l : List Nat) : UnpackResult :=
  unpack_loop l 0 0

/-- Number of bits in the binary representation (0 still needs one bit,
matching the spec's "1 byte for every v in 0..127"). -/
def bits_needed (v : Nat) : Nat :=
  if _h : v < 2 then 1 else 1 + bits_needed (v / 2)
decreasing_by
  omega

/-- Splitting off the low 7 bits is exact. -/
theorem and7_or_shr7 (n : Nat) : (n &&& 127) ||| ((n >>> 7) <<< 7) = n := by
  rw [lor_shl_eq_add (n >>> 7) 7 (by have := Nat.and_le_right (n := n) (m := 127); omega),
    and_127, Nat.shiftRight_eq_div_pow]
  omega

/-- The varint decode loop inverts the encoder, for any accumulator state
reachable while decoding a 32-bit value. -/
theorem unpack_pack_aux (num : Nat) : ∀ value bits, bits % 7 = 0 → bits ≤ 28 →
    num < 2 ^ (32 - bits) →
    unpack_loop (mail_index_pack_num num) value bits =
      UnpackResult.ok [] (value ||| (num <<< bits)) := by
  induction num using Nat.strong_induction_on with
  | _ num ih =>
    intro value bits h7 h28 hlt
    rw [mail_index_pack_num]
    by_cases hge : 0x80 ≤ num
    · have hbits21 : bits ≤ 21 := by
        by_contra hb
        have hb28 : bits = 28 := by omega
        subst hb28
        norm_num at hlt
        omega
      have hr : num &&& 0x7f ≤ 127 := Nat.and_le_right
      have hc : (num &&& 0x7f) ||| 0x80 = 128 + (num &&& 0x7f) :=
        merge_bit7 _ (by omega)
      rw [dif_pos hge, unpack_loop, hc]
      rw [if_neg (by omega)]
      have hmodsmall : ((128 + (num &&& 0x7f)) &&& 0x7f) = num &&& 0x7f := by
        rw [and_127, and_127]
        omega
      rw [hmodsmall]
      have hshift_lt : (num &&& 0x7f) <<< bits < 4294967296 := by
        rw [Nat.shiftLeft_eq]
        calc (num &&& 0x7f) * 2 ^ bits ≤ 127 * 2 ^ bits :=
              Nat.mul_le_mul_right _ hr
          _ ≤ 127 * 2 ^ 21 := Nat.mul_le_mul_left _
              (Nat.pow_le_pow_right (by omega) hbits21)
          _ < 4294967296 := by norm_num
      rw [Nat.mod_eq_of_lt hshift_lt]
      have hnum7 : num >>> 7 < num := by
        rw [Nat.shiftRight_eq_div_pow]
        omega
      have hrec : num >>> 7 < 2 ^ (32 - (bits + 7)) := by
        rw [Nat.shiftRight_eq_div_pow]
        have hsplit : (2 : Nat) ^ (32 - bits) = 2 ^ 7 * 2 ^ (32 - (bits + 7)) := by
          rw [← pow_add]
          congr 1
          omega
        rw [Nat.div_lt_iff_lt_mul (by norm_num : 0 < (2:Nat) ^ 7)]
        calc num < 2 ^ (32 - bits) := hlt
          _ = 2 ^ 7 * 2 ^ (32 - (bits + 7)) := hsplit
          _ = 2 ^ (32 - (bits + 7)) * 2 ^ 7 := Nat.mul_comm _ _
      rw [ih (num >>> 7) hnum7 _ (bits + 7) (by omega) (by omega) hrec]
      have hassemble : value ||| ((num &&& 0x7f) <<< bits) |||
          ((num >>> 7) <<< (bits + 7)) = value ||| (num <<< bits) := by
        rw [Nat.lor_assoc]
        congr 1
        rw [Nat.add_comm bits 7, Nat.shiftLeft_add, ← lor_shl, and7_or_shr7]
      rw [hassemble]
    · rw [dif_neg hge, unpack_loop]
      have hnum : num &&& 0x7f = num := by
        rw [and_127]
        omega
      rw [if_pos (by omega), if_neg (by omega), hnum]
      have hsl : num <<< bits < 4294967296 := by
        rw [Nat.shiftLeft_eq]
        have hsplit : (2 : Nat) ^ (32 - bits) * 2 ^ bits = 2 ^ 32 := by
          rw [← pow_add]
          congr 1
          omega
        calc num * 2 ^ bits < 2 ^ (32 - bits) * 2 ^ bits :=
              (Nat.mul_lt_mul_right (Nat.two_pow_pos bits)).mpr hlt
          _ = 2 ^ 32 := hsplit
          _ ≤ 4294967296 := by norm_num
      rw [Nat.mod_eq_of_lt hsl]

theorem bits_needed_pos (v : Nat) : 1 ≤ bits_needed v := by
  rw [bits_needed]
  by_cases h : v < 2
  · rw [dif_pos h]
  · rw [dif_neg h]
    omega

theorem bits_needed_step (v : Nat) (h : 2 ≤ v) :
    bits_needed v = 1 + bits_needed (v / 2) := by
  rw [bits_needed, dif_neg (by omega)]

theorem bits_needed_le (k : Nat) : ∀ v, v < 2 ^ (k + 1) → bits_needed v ≤ k + 1 := by
  induction k with
  | zero =>
    intro v hv
    rw [bits_needed, dif_pos (by omega)]
  | succ k ih =>
    intro v hv
    by_cases h2 : v < 2
    · rw [bits_needed, dif_pos h2]
      omega
    · rw [bits_needed_step v (by omega)]
      have := ih (v / 2) (by
        rw [pow_succ] at hv
        omega)
      omega

theorem bits_needed_div128 (v : Nat) (h : 128 ≤ v) :
    bits_needed v = 7 + bits_needed (v / 2 / 2 / 2 / 2 / 2 / 2 / 2) := by
  rw [bits_needed_step v (by omega),
    bits_needed_step (v / 2) (by omega),
    bits_needed_step (v / 2 / 2) (by omega),
    bits_needed_step (v / 2 / 2 / 2) (by omega),
    bits_needed_step (v / 2 / 2 / 2 / 2) (by omega),
    bits_needed_step (v / 2 / 2 / 2 / 2 / 2) (by omega),
    bits_needed_step (v / 2 / 2 / 2 / 2 / 2 / 2) (by omega)]
  omega

/-- The encoded length is `ceil(bits_needed(v) / 7)`. -/
theorem pack_length (v : Nat) :
    (mail_index_pack_num v).length = (bits_needed v + 6) / 7 := by
  induction v using Nat.strong_induction_on with
  | _ v ih =>
    rw [mail_index_pack_num]
    by_cases hge : 0x80 ≤ v
    · rw [dif_pos hge]
      have hlt : v >>> 7 < v := by
        rw [Nat.shiftRight_eq_div_pow]
        omega
      have hsplit : v >>> 7 = v / 2 / 2 / 2 / 2 / 2 / 2 / 2 := by
        rw [Nat.shiftRight_eq_div_pow]
        omega
      have h7 := bits_needed_div128 v (by omega)
      have hpos := bits_needed_pos (v / 2 / 2 / 2 / 2 / 2 / 2 / 2)
      rw [List.length_cons, ih (v >>> 7) hlt, hsplit, h7]
      omega
    · rw [dif_neg hge]
      have h8 := bits_needed_le 6 v (by omega)
      have hpos := bits_needed_pos v
      simp only [List.length_cons, List.length_nil]
      omega

/-- If the cursor reaches the end before a byte with the high bit clear,
the decode loop reports the truncated-input failure. -/
theorem unpack_all_continuation (l : List Nat) : ∀ value bits,
    (∀ b ∈ l, 0x80 ≤ b) →
    unpack_loop l value bits = UnpackResult.truncated := by
  induction l with
  | nil =>
    intro value bits _
    rw [unpack_loop]
  | cons c rest ih =>
    intro value bits hall
    rw [unpack_loop, if_neg (by
      have := hall c (List.mem_cons_self c rest)
      omega)]
    exact ih _ _ fun b hb => hall b (List.mem_cons_of_mem c hb)

/-- Every byte of an encoding except the last has the high bit set. -/
theorem pack_dropLast_continuation (v : Nat) :
    ∀ b ∈ (mail_index_pack_num v).dropLast, 0x80 ≤ b := by
  induction v using Nat.strong_induction_on with
  | _ v ih =>
    rw [mail_index_pack_num]
    by_cases hge : 0x80 ≤ v
    · rw [dif_pos hge]
      have hne : mail_index_pack_num (v >>> 7) ≠ [] := by
        rw [mail_index_pack_num]
        by_cases h : 0x80 ≤ v >>> 7
        · rw [dif_pos h]
          exact List.cons_ne_nil _ _
        · rw [dif_neg h]
          exact List.cons_ne_nil _ _
      rw [List.dropLast_cons_of_ne_nil hne]
      intro b hb
      rcases List.mem_cons.mp hb with hb | hb
      · subst hb
        have hc : (v &&& 0x7f) ||| 0x80 = 128 + (v &&& 0x7f) :=
          merge_bit7 _ (by have := Nat.and_le_right (n := v) (m := 127); omega)
        omega
      · exact ih (v >>> 7)
          (by rw [Nat.shiftRight_eq_div_pow]; omega) b hb
    · rw [dif_neg hge]
      intro b hb
      simp at hb

/-- Reaching the terminating byte after at least five continuation bytes
triggers the overflow failure. -/
theorem unpack_overflow_aux (cs : List Nat) : ∀ t value bits,
    (∀ b ∈ cs, 0x80 ≤ b) → t < 0x80 → 32 ≤ bits + 7 * cs.length →
    unpack_loop (cs ++ [t]) value bits = UnpackResult.overflow := by
  induction cs with
  | nil =>
    intro t value bits _ ht hbits
    rw [List.nil_append, unpack_loop, if_pos ht, if_pos (by simp at hbits; omega)]
  | cons c rest ih =>
    intro t value bits hall ht hbits
    rw [List.cons_append, unpack_loop, if_neg (by
      have := hall c (List.mem_cons_self c rest)
      omega)]
    refine ih _ _ _ (fun b hb => hall b (List.mem_cons_of_mem c hb)) ht ?hb
    simp only [List.length_cons] at hbits
    omega

/-- C2: for every 32-bit value `v`, `mail_index_unpack_num` on the bytes
written by `mail_index_pack_num v` succeeds and returns `v`, and the
encoding is exactly `ceil(bits_needed v / 7)` bytes long, where
`bits_needed` counts binary digits (1 for 0). -/
theorem C2_varint_roundtrip_length (v : Nat) (hv : v < 4294967296) :
    mail_index_unpack_num (mail_index_pack_num v) = UnpackResult.ok [] v ∧
    (mail_index_pack_num v).length = (bits_needed v + 6) / 7 := by
  refine ⟨?hrt, pack_length v⟩
  have h := unpack_pack_aux v 0 0 (by norm_num) (by norm_num)
    (by norm_num; exact hv)
  rw [mail_index_unpack_num, h]
  simp

/-- Witness for C2 at `v = 300`. -/
theorem C2_varint_roundtrip_length_witness :
    mail_index_unpack_num (mail_index_pack_num 300) = UnpackResult.ok [] 300 ∧
    (mail_index_pack_num 300).length = (bits_needed 300 + 6) / 7 :=
  C2_varint_roundtrip_length 300 (by decide)

/-- C3 counterexample: the five-byte input `80 80 80 80 1f` encodes the
magnitude `31 * 2^28 = 8321499136 ≥ 2^32`, i.e. a value needing at least
33 bits, yet `mail_index_unpack_num` does not fail with overflow — it
succeeds and returns the value silently truncated modulo `2^32`. -/
theorem C3_overflow_counterexample :
    mail_index_unpack_num [0x80, 0x80, 0x80, 0x80, 0x1f] =
      UnpackResult.ok [] 4026531840 ∧
    31 * 2 ^ 28 = 8321499136 ∧ 2 ^ 32 ≤ 31 * 2 ^ 28 ∧ 4026531840 ≠ 8321499136 ∧
    mail_index_unpack_num [0x80, 0x80, 0x80, 0x80, 0x1f] ≠
      UnpackResult.overflow := by
  exact ⟨by decide, by decide, by decide, by decide, by decide⟩

/-- C3 (amended): `mail_index_unpack_num` fails with the truncated-input
outcome whenever the buffer ends before a byte with the high bit clear —
in particular on any encoding with its last byte removed — and fails with
the overflow outcome exactly when the terminating byte arrives after at
least five continuation bytes (`bits >= 32`); five-byte inputs whose
magnitude exceeds 32 bits are instead silently truncated modulo `2^32`. -/
theorem C3_truncation_overflow_amended (l cs : List Nat) (t v : Nat)
    (hl : ∀ b ∈ l, 0x80 ≤ b) (hcs : ∀ b ∈ cs, 0x80 ≤ b) (ht : t < 0x80)
    (hlen : 5 ≤ cs.length) :
    mail_index_unpack_num l = UnpackResult.truncated ∧
    mail_index_unpack_num ((mail_index_pack_num v).dropLast) =
      UnpackResult.truncated ∧
    mail_index_unpack_num (cs ++ [t]) = UnpackResult.overflow :=
  ⟨unpack_all_continuation l 0 0 hl,
   unpack_all_continuation _ 0 0 (pack_dropLast_continuation v),
   unpack_overflow_aux cs t 0 0 hcs ht (by omega)⟩

/-- Witness for the amended C3. -/
theorem C3_truncation_overflow_amended_witness :
    mail_index_unpack_num [0x80] = UnpackResult.truncated ∧
    mail_index_unpack_num ((mail_index_pack_num 300).dropLast) =
      UnpackResult.truncated ∧
    mail_index_unpack_num ([0x80, 0x80, 0x80, 0x80, 0x80] ++ [0x05]) =
      UnpackResult.overflow :=
  C3_truncation_overflow_amended [0x80] [0x80, 0x80, 0x80, 0x80, 0x80] 0x05 300
    (by decide) (by decide) (by decide) (by decide)

/-! ### Sequence-record array (`mail_index_seq_array_*`)

The array is modelled as a `List (Nat × α)`: a 32-bit sequence number key
followed by the (fixed-size) record payload.  The C comparator casts the
`uint32_t` keys to `int` and subtracts; both the implementation-defined
conversion and the int subtraction wrap in two's complement, which the
model makes explicit. -/

/-- Two's-complement reading of a 32-bit value. -/
def toInt32 (n : Nat) : Int :=
  if n % 4294967296 < 2147483648 then (n % 4294967296 : Int)
  else (n % 4294967296 : Int) - 4294967296

/-- `mail_index_seq_record_cmp`: `(int)*key_seq - (int)*data_seq`. -/
def mail_index_seq_record_cmp (key_seq data_seq : Nat) : Int :=
  toInt32 ((4294967296 + key_seq % 4294967296 - data_seq % 4294967296) % 4294967296)

/-- Modelled from the spec: `array_bsearch_insert_pos` lives in
`lib/bsearch-insert-pos.h`, which is not among the provided sources; §4.2
describes `lookup` as a binary search returning `(found, insertion_index)`.
This is the classic lower/upper-bisection loop, fuelled for termination. -/
def bsearch_loop {α : Type} (arr : List (Nat × α)) (key : Nat) :
    Nat → Nat → Nat → Bool × Nat
  | 0, l, _ => (false, l)
  | fuel + 1, l, r =>
    if l < r then
      match arr[(l + r) / 2]? with
      | none => (false, l)
      | some e =>
        if 0 < mail_index_seq_record_cmp key e.1 then
          bsearch_loop arr key fuel ((l + r) / 2 + 1) r
        else if mail_index_seq_record_cmp key e.1 < 0 then
          bsearch_loop arr key fuel l ((l + r) / 2)
        else (true, (l + r) / 2)
    else (false, l)

/-- Modelled from the spec: binary search over the whole array. -/
def array_bsearch_insert_pos {α : Type} (arr : List (Nat × α)) (key : Nat) :
    Bool × Nat :=
  bsearch_loop arr key (arr.length + 1) 0 arr.length

/-- `mail_index_seq_array_lookup`: fast-path append check against the last
element, then binary search. -/
def mail_index_seq_array_lookup {α : Type} (arr : List (Nat × α)) (seq : Nat) :
    Bool × Nat :=
  match arr.getLast? with
  | some elem =>
    if seq > elem.1 then (false, arr.length)
    else array_bsearch_insert_pos arr seq
  | none => array_bsearch_insert_pos arr seq

/-- `mail_index_seq_array_add`: update in place when the key is present
(returning the previous record, as through `old_record`), otherwise insert
at the reported position.  Returns (was_present, new array, old record). -/
def mail_index_seq_array_add {α : Type} (arr : List (Nat × α)) (seq : Nat)
    (record : α) : Bool × List (Nat × α) × Option α :=
  match mail_index_seq_array_lookup arr seq with
  | (true, idx) =>
    match arr[idx]? with
    | some e => (true, arr.set idx (e.1, record), some e.2)
    | none => (true, arr, none)
  | (false, idx) => (false, List.insertIdx idx (seq, record) arr, none)

/-- Folding a whole sequence of `mail_index_seq_array_add` calls from the
lazily-created (empty) array. -/
def mail_index_seq_array_run {α : Type} (ops : List (Nat × α)) :
    List (Nat × α) :=
  ops.foldl (fun arr op => (mail_index_seq_array_add arr op.1 op.2).2.1) []

/-- For keys below `2^31` the comparator is the exact integer difference
(no wrap-around). -/
theorem cmp_eq_sub {a b : Nat} (ha : a < 2147483648) (hb : b < 2147483648) :
    mail_index_seq_record_cmp a b = (a : Int) - (b : Int) := by
  unfold mail_index_seq_record_cmp toInt32
  split_ifs with h <;> omega

/-- Keys strictly ascending by index (hence no duplicates). -/
def SortedByIdx {α : Type} (arr : List (Nat × α)) : Prop :=
  ∀ i j, (hi : i < arr.length) → (hj : j < arr.length) → i < j →
    arr[i].1 < arr[j].1

/-- Correctness of the (spec-modelled) binary search on a sorted array with
small keys: `true` finds the key, `false` yields the insertion point with
everything before it smaller and everything from it on larger. -/
theorem bsearch_loop_correct {α : Type} (arr : List (Nat × α)) (key : Nat)
    (hkey : key < 2147483648) (hsmall : ∀ e ∈ arr, e.1 < 2147483648)
    (hsorted : SortedByIdx arr) :
    ∀ fuel l r found idx, r ≤ arr.length → l ≤ r → r - l < fuel →
    (∀ i, (hi : i < arr.length) → i < l → arr[i].1 < key) →
    (∀ i, (hi : i < arr.length) → r ≤ i → key < arr[i].1) →
    bsearch_loop arr key fuel l r = (found, idx) →
    (found = true → ∃ hi : idx < arr.length, arr[idx].1 = key) ∧
    (found = false → idx ≤ arr.length ∧
      (∀ i, (hi : i < arr.length) → i < idx → arr[i].1 < key) ∧
      (∀ i, (hi : i < arr.length) → idx ≤ i → key < arr[i].1)) := by
  intro fuel
  induction fuel with
  | zero =>
    intro l r found idx hr hlr hfuel
    omega
  | succ fuel ih =>
    intro l r found idx hr hlr hfuel hbelow habove heq
    rw [bsearch_loop] at heq
    by_cases hlt : l < r
    · rw [if_pos hlt] at heq
      have hm : (l + r) / 2 < arr.length := by omega
      simp only [List.getElem?_eq_getElem hm] at heq
      have hsm : arr[(l + r) / 2].1 < 2147483648 :=
        hsmall _ (List.getElem_mem hm)
      rw [cmp_eq_sub hkey hsm] at heq
      by_cases hpos : arr[(l + r) / 2].1 < key
      · rw [if_pos (by omega)] at heq
        refine ih ((l + r) / 2 + 1) r found idx hr (by omega) (by omega)
          ?below habove heq
        intro i hi hilt
        rcases Nat.lt_or_ge i ((l + r) / 2) with hcase | hcase
        · exact Nat.lt_trans (hsorted i ((l + r) / 2) hi hm hcase) hpos
        · have : i = (l + r) / 2 := by omega
          subst this
          exact hpos
      · by_cases hneg : key < arr[(l + r) / 2].1
        · rw [if_neg (by omega), if_pos (by omega)] at heq
          refine ih l ((l + r) / 2) found idx (by omega) (by omega) (by omega)
            hbelow ?above heq
          intro i hi hige
          rcases Nat.lt_or_ge ((l + r) / 2) i with hcase | hcase
          · exact Nat.lt_trans hneg (hsorted ((l + r) / 2) i hm hi hcase)
          · have : i = (l + r) / 2 := by omega
            subst this
            exact hneg
        · rw [if_neg (by omega), if_neg (by omega)] at heq
          obtain ⟨hfound, hidx⟩ := Prod.mk.injEq .. ▸ heq
          constructor
          · intro _
            refine ⟨hidx ▸ hm, ?_⟩
            subst hidx
            omega
          · intro hfalse
            rw [← hfound] at hfalse
            simp at hfalse
    · rw [if_neg hlt] at heq
      obtain ⟨hfound, hidx⟩ := Prod.mk.injEq .. ▸ heq
      subst hidx
      constructor
      · intro htrue
        rw [← hfound] at htrue
        simp at htrue
      · intro _
        exact ⟨by omega, hbelow, fun i hi hge => habove i hi (by omega)⟩

/-- Correctness of `mail_index_seq_array_lookup` on a sorted array with
keys below `2^31` (the query may be arbitrary). -/
theorem lookup_correct {α : Type} (arr : List (Nat × α)) (seq : Nat)
    (hsmall : ∀ e ∈ arr, e.1 < 2147483648) (hsorted : SortedByIdx arr) :
    ∀ found idx, mail_index_seq_array_lookup arr seq = (found, idx) →
    (found = true → ∃ hi : idx < arr.length, arr[idx].1 = seq) ∧
    (found = false → idx ≤ arr.length ∧
      (∀ i, (hi : i < arr.length) → i < idx → arr[i].1 < seq) ∧
      (∀ i, (hi : i < arr.length) → idx ≤ i → seq < arr[i].1)) := by
  intro found idx heq
  unfold mail_index_seq_array_lookup at heq
  rcases harr : arr.getLast? with _ | elem
  · have hnil : arr = [] := List.getLast?_eq_none_iff.mp harr
    subst hnil
    simp only [harr] at heq
    unfold array_bsearch_insert_pos at heq
    rw [bsearch_loop] at heq
    simp only [List.length_nil] at heq
    rw [if_neg (by omega)] at heq
    obtain ⟨hfound, hidx⟩ := Prod.mk.injEq .. ▸ heq
    subst hidx
    constructor
    · intro htrue
      rw [← hfound] at htrue
      simp at htrue
    · intro _
      refine ⟨by simp, ?_, ?_⟩ <;> intro i hi <;> simp at hi
  · simp only [harr] at heq
    have hne : arr ≠ [] := by
      intro h
      subst h
      simp at harr
    have hlenpos : 0 < arr.length := List.length_pos.mpr hne
    have hlast : arr.getLast? = arr[arr.length - 1]? :=
      List.getLast?_eq_getElem? arr
    rw [harr, List.getElem?_eq_getElem (by omega)] at hlast
    have helem : arr[arr.length - 1] = elem := by
      exact (Option.some.injEq .. ▸ hlast.symm)
    by_cases hgt : seq > elem.1
    · rw [if_pos hgt] at heq
      obtain ⟨hfound, hidx⟩ := Prod.mk.injEq .. ▸ heq
      subst hidx
      constructor
      · intro htrue
        rw [← hfound] at htrue
        simp at htrue
      · intro _
        refine ⟨le_refl _, ?_, ?_⟩
        · intro i hi _
          rcases Nat.lt_or_ge i (arr.length - 1) with hcase | hcase
          · have := hsorted i (arr.length - 1) hi (by omega) hcase
            rw [helem] at this
            omega
          · have : i = arr.length - 1 := by omega
            subst this
            rw [helem]
            omega
        · intro i hi hge
          omega
    · rw [if_neg hgt] at heq
      have hse : seq < 2147483648 := by
        have := hsmall elem (helem ▸ List.getElem_mem (by omega))
        omega
      exact bsearch_loop_correct arr seq hse hsmall hsorted
        (arr.length + 1) 0 arr.length found idx (le_refl _) (by omega)
        (by omega) (fun i hi h => by omega) (fun i hi h => by omega) heq

/-- `lookup` reports found exactly for the keys present in the array. -/
theorem lookup_found_iff {α : Type} (arr : List (Nat × α)) (seq : Nat)
    (hsmall : ∀ e ∈ arr, e.1 < 2147483648) (hsorted : SortedByIdx arr) :
    (mail_index_seq_array_lookup arr seq).1 = true ↔
      seq ∈ arr.map Prod.fst := by
  rcases hres : mail_index_seq_array_lookup arr seq with ⟨found, idx⟩
  obtain ⟨htrue, hfalse⟩ := lookup_correct arr seq hsmall hsorted found idx hres
  constructor
  · intro h
    obtain ⟨hi, hkey⟩ := htrue h
    exact List.mem_map.mpr ⟨arr[idx], List.getElem_mem hi, hkey⟩
  · intro hmem
    obtain ⟨e, hemem, hkey⟩ := List.mem_map.mp hmem
    obtain ⟨i, hi, hie⟩ := List.mem_iff_getElem.mp hemem
    by_contra hnot
    have hfound : found = false := by
      cases found
      · rfl
      · simp at hnot
    obtain ⟨_, hbefore, hafter⟩ := hfalse hfound
    rcases Nat.lt_or_ge i idx with hcase | hcase
    · have := hbefore i hi hcase
      rw [hie, hkey] at this
      omega
    · have := hafter i hi hcase
      rw [hie, hkey] at this
      omega

/-- One `mail_index_seq_array_add` call preserves the sortedness and
small-key invariants, and the key set grows by exactly the added key. -/
theorem add_step {α : Type} (arr : List (Nat × α)) (seq : Nat) (record : α)
    (hseq : seq < 2147483648) (hsmall : ∀ e ∈ arr, e.1 < 2147483648)
    (hsorted : SortedByIdx arr) :
    SortedByIdx (mail_index_seq_array_add arr seq record).2.1 ∧
    (∀ e ∈ (mail_index_seq_array_add arr seq record).2.1, e.1 < 2147483648) ∧
    (∀ s, s ∈ (mail_index_seq_array_add arr seq record).2.1.map Prod.fst ↔
      s ∈ arr.map Prod.fst ∨ s = seq) := by
  unfold mail_index_seq_array_add
  rcases hl : mail_index_seq_array_lookup arr seq with ⟨found, idx⟩
  obtain ⟨htrue, hfalse⟩ := lookup_correct arr seq hsmall hsorted found idx hl
  cases found
  · obtain ⟨hidx, hbefore, hafter⟩ := hfalse rfl
    simp only []
    have hlen : (List.insertIdx idx (seq, record) arr).length = arr.length + 1 :=
      List.length_insertIdx idx arr hidx
    refine ⟨?_, ?_, ?_⟩
    · intro i j hi hj hij
      rw [hlen] at hi hj
      rcases Nat.lt_trichotomy j idx with hjc | hjc | hjc
      · rw [List.getElem_insertIdx_of_lt arr (seq, record) idx i (by omega) (by omega),
          List.getElem_insertIdx_of_lt arr (seq, record) idx j hjc (by omega)]
        exact hsorted i j (by omega) (by omega) hij
      · subst hjc
        rw [List.getElem_insertIdx_self arr (seq, record) j hidx,
          List.getElem_insertIdx_of_lt arr (seq, record) j i hij (by omega)]
        exact hbefore i (by omega) hij
      · obtain ⟨k, hk⟩ : ∃ k, j = idx + k + 1 := ⟨j - idx - 1, by omega⟩
        subst hk
        rw [List.getElem_insertIdx_add_succ arr (seq, record) idx k (by omega)]
        rcases Nat.lt_trichotomy i idx with hic | hic | hic
        · rw [List.getElem_insertIdx_of_lt arr (seq, record) idx i hic (by omega)]
          exact hsorted i (idx + k) (by omega) (by omega) (by omega)
        · subst hic
          rw [List.getElem_insertIdx_self arr (seq, record) i hidx]
          exact hafter (i + k) (by omega) (by omega)
        · obtain ⟨k', hk'⟩ : ∃ k', i = idx + k' + 1 := ⟨i - idx - 1, by omega⟩
          subst hk'
          rw [List.getElem_insertIdx_add_succ arr (seq, record) idx k' (by omega)]
          exact hsorted (idx + k') (idx + k) (by omega) (by omega) (by omega)
    · intro e he
      rcases (List.mem_insertIdx hidx).mp he with he | he
      · rw [he]
        exact hseq
      · exact hsmall e he
    · intro s
      constructor
      · intro hs
        obtain ⟨e, hemem, hkey⟩ := List.mem_map.mp hs
        rcases (List.mem_insertIdx hidx).mp hemem with he | he
        · right
          rw [he] at hkey
          exact hkey.symm
        · exact Or.inl (List.mem_map.mpr ⟨e, he, hkey⟩)
      · intro hs
        rcases hs with hs | hs
        · obtain ⟨e, hemem, hkey⟩ := List.mem_map.mp hs
          exact List.mem_map.mpr ⟨e, (List.mem_insertIdx hidx).mpr (Or.inr hemem), hkey⟩
        · subst hs
          exact List.mem_map.mpr
            ⟨(s, record), (List.mem_insertIdx hidx).mpr (Or.inl rfl), rfl⟩
  · obtain ⟨hi, hkey⟩ := htrue rfl
    simp only [List.getElem?_eq_getElem hi]
    have hslen : (arr.set idx (arr[idx].1, record)).length = arr.length :=
      List.length_set arr idx _
    have hkeys : ∀ j, (hj : j < (arr.set idx (arr[idx].1, record)).length) →
        (arr.set idx (arr[idx].1, record))[j].1 = (arr[j]).1 := by
      intro j hj
      by_cases hji : idx = j
      · subst hji
        rw [List.getElem_set_self hj]
      · rw [List.getElem_set_ne hji hj]
    refine ⟨?_, ?_, ?_⟩
    · intro i j hij hj hlt
      rw [hkeys i hij, hkeys j hj]
      exact hsorted i j (by omega) (by omega) hlt
    · intro e he
      rcases List.mem_iff_getElem.mp he with ⟨j, hj, hje⟩
      have hjlt : j < arr.length := by omega
      rw [← hje, hkeys j hj]
      exact hsmall _ (List.getElem_mem _)
    · intro s
      have hmapeq : ∀ t, t ∈ (arr.set idx (arr[idx].1, record)).map Prod.fst ↔
          t ∈ arr.map Prod.fst := by
        intro t
        constructor
        · intro ht
          obtain ⟨e, hemem, hkeyt⟩ := List.mem_map.mp ht
          obtain ⟨j, hj, hje⟩ := List.mem_iff_getElem.mp hemem
          have hjlt : j < arr.length := by omega
          refine List.mem_map.mpr ⟨arr[j], List.getElem_mem _, ?_⟩
          rw [← hkeyt, ← hje, hkeys j hj]
        · intro ht
          obtain ⟨e, hemem, hkeyt⟩ := List.mem_map.mp ht
          obtain ⟨j, hj, hje⟩ := List.mem_iff_getElem.mp hemem
          have hjlt : j < (arr.set idx (arr[idx].1, record)).length := by omega
          refine List.mem_map.mpr
            ⟨(arr.set idx (arr[idx].1, record))[j], List.getElem_mem _, ?_⟩
          rw [hkeys j hjlt, hje, hkeyt]
      rw [hmapeq]
      constructor
      · exact Or.inl
      · intro hs
        rcases hs with hs | hs
        · exact hs
        · subst hs
          exact List.mem_map.mpr ⟨arr[idx], List.getElem_mem hi, hkey⟩

/-- Folding adds preserves the invariants; the key set is the union of the
initial keys and the added keys. -/
theorem run_invariant {α : Type} (ops : List (Nat × α))
    (hsmall : ∀ op ∈ ops, op.1 < 2147483648) :
    ∀ arr, SortedByIdx arr → (∀ e ∈ arr, e.1 < 2147483648) →
    SortedByIdx (ops.foldl
      (fun a op => (mail_index_seq_array_add a op.1 op.2).2.1) arr) ∧
    (∀ e ∈ ops.foldl
      (fun a op => (mail_index_seq_array_add a op.1 op.2).2.1) arr,
      e.1 < 2147483648) ∧
    (∀ s, s ∈ (ops.foldl
        (fun a op => (mail_index_seq_array_add a op.1 op.2).2.1) arr).map
        Prod.fst ↔
      s ∈ arr.map Prod.fst ∨ s ∈ ops.map Prod.fst) := by
  induction ops with
  | nil =>
    intro arr hs hm
    refine ⟨hs, hm, fun s => ?_⟩
    simp
  | cons op rest ih =>
    intro arr hs hm
    simp only [List.foldl_cons]
    obtain ⟨s1, s2, s3⟩ := add_step arr op.1 op.2
      (hsmall op (List.mem_cons_self op rest)) hm hs
    obtain ⟨r1, r2, r3⟩ :=
      ih (fun o ho => hsmall o (List.mem_cons_of_mem op ho)) _ s1 s2
    refine ⟨r1, r2, fun s => ?_⟩
    rw [r3 s, s3 s, List.map_cons, List.mem_cons]
    tauto

/-- C4 counterexample: with 32-bit sequence numbers spanning the signed
boundary, the `(int)` casts in `mail_index_seq_record_cmp` misorder the
comparisons.  After adding 0, 1 and `2^31 + 1` (each appended via the fast
path), the key `2^31 + 1` is in the array, yet
`mail_index_seq_array_lookup` reports it absent. -/
theorem C4_seq_array_counterexample :
    2147483649 ∈ (mail_index_seq_array_run
      ([(0, ()), (1, ()), (2147483649, ())] : List (Nat × Unit))).map
        Prod.fst ∧
    (mail_index_seq_array_lookup
      (mail_index_seq_array_run
        ([(0, ()), (1, ()), (2147483649, ())] : List (Nat × Unit)))
      2147483649).1 = false := by
  exact ⟨by decide, by decide⟩

/-- C4 (amended): after any finite sequence of `mail_index_seq_array_add`
calls whose sequence numbers stay below `2^31`, the array's entries are in
strictly ascending sequence-number order with no duplicate keys, and
`mail_index_seq_array_lookup` reports presence for exactly the sequence
numbers that were added and absence for every other query. -/
theorem C4_seq_array_amended {α : Type} (ops : List (Nat × α))
    (hsmall : ∀ op ∈ ops, op.1 < 2147483648) :
    SortedByIdx (mail_index_seq_array_run ops) ∧
    ∀ s : Nat,
      (mail_index_seq_array_lookup (mail_index_seq_array_run ops) s).1 =
        true ↔ s ∈ ops.map Prod.fst := by
  obtain ⟨r1, r2, r3⟩ := run_invariant ops hsmall []
    (by intro i j hi hj hij; simp at hi) (by simp)
  refine ⟨r1, fun s => ?_⟩
  rw [mail_index_seq_array_run, lookup_found_iff _ s r2 r1, r3 s]
  simp

/-- Witness for the amended C4 with repeated and out-of-order keys. -/
theorem C4_seq_array_amended_witness :
    SortedByIdx (mail_index_seq_array_run
      ([(5, 0), (2, 10), (9, 20), (2, 30), (7, 40)] : List (Nat × Nat))) ∧
    ∀ s : Nat,
      (mail_index_seq_array_lookup
        (mail_index_seq_array_run
          ([(5, 0), (2, 10), (9, 20), (2, 30), (7, 40)] : List (Nat × Nat)))
        s).1 = true ↔
      s ∈ ([(5, 0), (2, 10), (9, 20), (2, 30), (7, 40)] :
        List (Nat × Nat)).map Prod.fst :=
  C4_seq_array_amended _ (by decide)

/-! ### Maildir synchronization (`src/lib-storage/index/maildir/maildir-sync.c`)

Filesystem and index interactions are modelled by passing their results as
parameters (stat results, lock-acquisition results, index states); the
functions below mirror the C control flow over those inputs.  Re-reading
the persisted index header (`maildir_sync_header_refresh`) is modelled as
the identity: the model describes one sync pass against a fixed snapshot,
with no concurrent index writer. -/

/-- `MAILDIR_SYNC_SECS`, from `maildir-sync.h` (not under the provided
sources).  Modelled from the spec: the clock-skew window; the file comment
says "Our default is 1 second". -/
def MAILDIR_SYNC_SECS : Nat := 1

def MAILDIR_RENAME_RESCAN_COUNT : Nat := 5

def DUPE_LINKS_DELETE_SECS : Int := 30

def WHY_FORCED : Nat := 0x01
def WHY_FIRSTSYNC : Nat := 0x02
def WHY_NEWCHANGED : Nat := 0x04
def WHY_CURCHANGED : Nat := 0x08
def WHY_DELAYEDCUR : Nat := 0x80

/-- The persisted maildir index extension header. -/
structure MaildirIndexHeader where
  new_check_time : Nat
  new_mtime : Nat
  new_mtime_nsecs : Nat
  cur_check_time : Nat
  cur_mtime : Nat
  cur_mtime_nsecs : Nat
deriving DecidableEq, Repr

/-- The mtime data obtained from `stat()`ing the `cur/` directory. -/
structure StatTimes where
  st_mtime : Nat
  st_mtime_nsec : Nat
deriving DecidableEq, Repr

/-- The `DIR_DELAYED_REFRESH(hdr, cur)` macro. -/
def DIR_DELAYED_REFRESH_cur (hdr : MaildirIndexHeader) (undirty : Bool)
    (ioloop_time : Nat) : Bool :=
  (hdr.cur_check_time ≤ hdr.cur_mtime + MAILDIR_SYNC_SECS) &&
  (undirty ||
    decide ((hdr.cur_check_time : Int) < (ioloop_time : Int) - (MAILDIR_SYNC_SECS : Nat)))

/-- The `DIR_MTIME_CHANGED(st, hdr, cur)` macro. -/
def DIR_MTIME_CHANGED_cur (st : StatTimes) (hdr : MaildirIndexHeader) : Bool :=
  decide (st.st_mtime ≠ hdr.cur_mtime) ||
  decide (st.st_mtime_nsec ≠ hdr.cur_mtime_nsecs)

/-- `maildir_sync_quick_check`: `none` models the `-1` stat-failure return,
`some (cur_changed, why)` the successful return.  Under the fixed-snapshot
model a header refresh changes nothing, so the delayed-refresh re-test
yields the same answer and the stat re-check loop (which runs at most one
refresh thanks to the `refreshed` flag) reduces to a single evaluation. -/
def maildir_sync_quick_check (hdr : MaildirIndexHeader) (undirty very_dirty : Bool)
    (statCur : Option StatTimes) (ioloop_time : Nat) : Option (Bool × Nat) :=
  if hdr.new_mtime = 0 then
    -- maildir_sync_get_header re-read yields the same snapshot: first sync
    some (true, WHY_FIRSTSYNC)
  else if DIR_DELAYED_REFRESH_cur hdr undirty ioloop_time && !very_dirty then
    -- refresh (identity), then the same test again
    some (true, WHY_DELAYEDCUR)
  else
    match statCur with
    | none => none
    | some st =>
      if DIR_MTIME_CHANGED_cur st hdr then some (true, WHY_CURCHANGED)
      else some (false, 0)

/-- Observable outcome of one `maildir_sync_context` pass, modelled up to
and including the decision whether `maildir_scan_dir` is invoked. -/
structure SyncCtxOutcome where
  early_ret : Option Int
  partialFlag : Bool
  usedNolock : Bool
  notified : Bool
  locked : Bool
  scanned : Bool
deriving DecidableEq, Repr

/-- `maildir_sync_context`, with external interactions passed in:
`have_any` is `mail_index_sync_have_any`, `lockRet` the result of the first
`maildir_uidlist_sync_init` (1 success / 0 timeout / -1 failure),
`nolockRet` the result of the `NOLOCK` re-init, `lockedAfterInit` the
`maildir_uidlist_is_locked` state, `hasNotifyCb` whether
`storage->callbacks.notify_no` is set, and `indexBeginOk` the outcome of
`maildir_sync_index_begin`.  `early_ret = some r` means the pass returned
`r` before reaching the scan decision; `scanned` records whether
`maildir_scan_dir` was invoked. -/
def maildir_sync_context_model (forced undirty very_dirty : Bool)
    (hdr : MaildirIndexHeader) (statCur : Option StatTimes) (ioloop_time : Nat)
    (have_any : Bool) (lockRet nolockRet : Int) (lockedAfterInit : Bool)
    (hasNotifyCb syncing_commit indexBeginOk : Bool) : SyncCtxOutcome :=
  let fail : Int → SyncCtxOutcome := fun r =>
    ⟨some r, false, false, false, false, false⟩
  -- quick check / forced entry
  let entry : Option Bool :=
    if forced then some true
    else match maildir_sync_quick_check hdr undirty very_dirty statCur ioloop_time with
      | none => none
      | some (cur_changed, _) =>
        if cur_changed then some true
        else if have_any then some false
        else none  -- handled below: distinguish error from no-op via lockStage
  match maildir_sync_quick_check hdr undirty very_dirty statCur ioloop_time,
      entry with
  | _, some cur_changed =>
    -- locking stage
    if lockRet = 0 then fail 0  -- timeout: return 0
    else if lockRet < 0 then
      if forced then fail (-1)
      else if nolockRet ≤ 0 then fail (-1)
      else
        -- NOLOCK re-init succeeded; degraded-mode notice if callback set;
        -- lock_failure is true here, so index sync begins iff not committing
        let locked := lockedAfterInit
        let partial0 := !cur_changed || !locked
        if !syncing_commit && !indexBeginOk then fail (-1)
        else ⟨none, partial0, true, hasNotifyCb, locked, cur_changed⟩
    else
      let locked := lockedAfterInit
      let partial0 := !cur_changed || !locked
      if !syncing_commit && locked && !indexBeginOk then fail (-1)
      else ⟨none, partial0, false, false, locked, cur_changed⟩
  | none, _ => fail (-1)        -- quick check stat failure (not forced)
  | some _, none => fail 0      -- no changes at all: return ret ≤ 0

/-- `stat()` data relevant to `maildir_fix_duplicate`. -/
structure StatInfo where
  st_ino : Nat
  st_dev : Nat
  st_nlink : Nat
  st_ctime : Int
deriving DecidableEq, Repr

/-- Filesystem actions `maildir_fix_duplicate` can issue. -/
inductive FixDupAction where
  | unlink_path2
  | rename_path2_to (new_fname : String)
deriving DecidableEq, Repr

/-- `maildir_fix_duplicate`.  `stat1`/`stat2` are the `stat()` results of
the uidlist's filename and the newly seen colliding filename (`none` =
stat failed); `new_base` stands for `maildir_filename_generate()`; `sizeS`
and `sizeW` are the `maildir_filename_get_size` results for the `S=` and
`W=` annotations of `fname2` (the helper lives in `maildir-filename.c`,
outside the provided sources, so its results are inputs here).  Returns
the C return value together with the filesystem actions performed. -/
def maildir_fix_duplicate (stat1 stat2 : Option StatInfo) (ioloop_time : Int)
    (new_base : String) (sizeS sizeW : Option Nat) : Int × List FixDupAction :=
  match stat1, stat2 with
  | some st1, some st2 =>
    if st1.st_ino = st2.st_ino ∧ st1.st_dev = st2.st_dev then
      if 1 < st1.st_nlink ∧ st2.st_nlink = st1.st_nlink ∧
          st1.st_ctime = st2.st_ctime ∧
          st1.st_ctime < ioloop_time - DUPE_LINKS_DELETE_SECS then
        (0, [FixDupAction.unlink_path2])
      else (0, [])
    else
      -- new_fname is generated and decorated with the preserved sizes…
      let base1 := match sizeS with
        | some size => new_base ++ ",S=" ++ toString size
        | none => new_base
      let _new_fname := match sizeW with
        | some size => base1 ++ ",W=" ++ toString size
        | none => base1
      -- …and then dropped: the function returns without issuing a rename
      (0, [])
  | _, _ =>
    -- "most likely the files just don't exist anymore"
    (0, [])

/-- `maildir_sync_run`: `runPass i forced` stands for the i-th
`maildir_sync_context` call of this run, returning `(ret, ctx.racing)`.
The result is the returned value together with the `forced` flags of the
passes that were executed. -/
def maildir_sync_run_model (force_resync : Bool)
    (runPass : Nat → Bool → Int × Bool) : Int × List Bool :=
  let r1 := runPass 0 force_resync
  if r1.2 then
    -- we're racing some file: retry the sync, forced, exactly once;
    -- the retry's own racing flag is dropped with its context
    let r2 := runPass 1 true
    (r2.1, [force_resync, true])
  else (r1.1, [force_resync])

/-! ### doveadm cache decision command
(`src/doveadm/doveadm-mail-mailbox-cache.c`) -/

inductive MailCacheDecisionType where
  | NO
  | TEMP
  | YES
deriving DecidableEq, Repr

/-- `cmd_mailbox_cache_str_to_make_decision`: `none` models returning
FALSE without setting the out-parameter. -/
def cmd_mailbox_cache_str_to_make_decision (str : String) :
    Option MailCacheDecisionType :=
  if str = "no" then some MailCacheDecisionType.NO
  else if str = "temp" then some MailCacheDecisionType.TEMP
  else if str = "yes" then some MailCacheDecisionType.YES
  else none

def EX_USAGE : Nat := 64

/-- The doveadm command parameters consumed by
`cmd_mailbox_cache_decision_init`. -/
structure CacheDecisionParams where
  last_used : Option Nat
  decision : Option String
  all_flag : Bool
  fieldstr : Option String
  mailbox : Option (List String)
deriving DecidableEq, Repr

/-- The context state assembled by `cmd_mailbox_cache_decision_init`. -/
structure CacheDecisionCtx where
  set_last_used : Bool
  last_used : Nat
  set_decision : Bool
  decision : Option MailCacheDecisionType
  all_fields : Bool
  fieldstr : Option String
  boxes : List String
deriving DecidableEq, Repr

/-- `cmd_mailbox_cache_decision_init`: pure parameter validation run at
command-init time, before any mailbox or cache is opened; `i_fatal_status`
is modelled as `Except.error (status, message)`. -/
def cmd_mailbox_cache_decision_init (p : CacheDecisionParams) :
    Except (Nat × String) CacheDecisionCtx :=
  let set_last_used := p.last_used.isSome
  let lu := p.last_used.getD 0
  match p.decision with
  | some value_str =>
    match cmd_mailbox_cache_str_to_make_decision value_str with
    | none =>
      Except.error (EX_USAGE,
        "Invalid decision " ++ value_str ++ ": must be one of yes, temp, no")
    | some d =>
      if !p.all_flag ∧ p.fieldstr = none then
        Except.error (EX_USAGE, "Missing fields parameter")
      else match p.mailbox with
        | none => Except.error (EX_USAGE, "Missing mailbox")
        | some boxes =>
          Except.ok ⟨set_last_used, lu, true, some d, p.all_flag,
            p.fieldstr, boxes⟩
  | none =>
    if !p.all_flag ∧ p.fieldstr = none then
      Except.error (EX_USAGE, "Missing fields parameter")
    else match p.mailbox with
      | none => Except.error (EX_USAGE, "Missing mailbox")
      | some boxes =>
        Except.ok ⟨set_last_used, lu, false, none, p.all_flag,
          p.fieldstr, boxes⟩

/-- C5: the claim (and the file's own design comment: "What we should do
is create a completely new base name for it and rename() it to that.  If
the call fails with ENOENT, it only means that it wasn't a duplicate
after all") says a colliding entry with a different inode is renamed to a
freshly generated filename preserving its `S=`/`W=` suffixes.  The code
computes that filename and then returns 0 without performing any rename:
for every pair of stat results with different inodes (or devices),
`maildir_fix_duplicate` issues no filesystem action at all, so the
collision is left in place. -/
theorem C5_fix_duplicate_never_renames (st1 st2 : StatInfo) (t : Int)
    (nb : String) (sS sW : Option Nat)
    (hdiff : ¬(st1.st_ino = st2.st_ino ∧ st1.st_dev = st2.st_dev)) :
    maildir_fix_duplicate (some st1) (some st2) t nb sS sW = (0, []) := by
  simp only [maildir_fix_duplicate]
  rw [if_neg hdiff]

/-- Witness for C5: two entries on the same device with inodes 1 and 2. -/
theorem C5_fix_duplicate_never_renames_witness :
    maildir_fix_duplicate (some ⟨1, 5, 1, 0⟩) (some ⟨2, 5, 1, 0⟩) 1000
      "1234.M0.host" (some 100) none = (0, []) :=
  C5_fix_duplicate_never_renames ⟨1, 5, 1, 0⟩ ⟨2, 5, 1, 0⟩ 1000
    "1234.M0.host" (some 100) none (by decide)

/-- C7: for every `maildir_sync_run`, at most two sync passes execute; a
second pass executes exactly when the first one set the racing flag, and
that retry runs with `forced = true`; the retry's own racing outcome never
schedules a further pass, and when racing occurred the run's result is the
retry's result (racing itself is never turned into an error). -/
theorem C7_sync_run_single_retry (force : Bool)
    (runPass : Nat → Bool → Int × Bool) :
    (maildir_sync_run_model force runPass).2.length ≤ 2 ∧
    ((maildir_sync_run_model force runPass).2.length = 2 ↔
      (runPass 0 force).2 = true) ∧
    (maildir_sync_run_model force runPass).2.head? = some force ∧
    ((runPass 0 force).2 = true →
      (maildir_sync_run_model force runPass).2 = [force, true] ∧
      (maildir_sync_run_model force runPass).1 = (runPass 1 true).1) ∧
    ((runPass 0 force).2 = false →
      (maildir_sync_run_model force runPass).2 = [force] ∧
      (maildir_sync_run_model force runPass).1 = (runPass 0 force).1) := by
  unfold maildir_sync_run_model
  by_cases h : (runPass 0 force).2 <;> simp [h]

/-- Witness for C7: first pass races with result 0, retry returns 5. -/
theorem C7_sync_run_single_retry_witness :
    (maildir_sync_run_model false
      (fun i _ => if i = 0 then (0, true) else (5, false))).2.length ≤ 2 ∧
    ((maildir_sync_run_model false
      (fun i _ => if i = 0 then (0, true) else (5, false))).2.length = 2 ↔
      ((fun (i : Nat) (_ : Bool) =>
        if i = 0 then ((0 : Int), true) else (5, false)) 0 false).2 = true) ∧
    (maildir_sync_run_model false
      (fun i _ => if i = 0 then (0, true) else (5, false))).2.head? =
      some false ∧
    (((fun (i : Nat) (_ : Bool) =>
        if i = 0 then ((0 : Int), true) else (5, false)) 0 false).2 = true →
      (maildir_sync_run_model false
        (fun i _ => if i = 0 then (0, true) else (5, false))).2 =
        [false, true] ∧
      (maildir_sync_run_model false
        (fun i _ => if i = 0 then (0, true) else (5, false))).1 =
        ((fun (i : Nat) (_ : Bool) =>
          if i = 0 then ((0 : Int), true) else (5, false)) 1 true).1) ∧
    (((fun (i : Nat) (_ : Bool) =>
        if i = 0 then ((0 : Int), true) else (5, false)) 0 false).2 = false →
      (maildir_sync_run_model false
        (fun i _ => if i = 0 then (0, true) else (5, false))).2 = [false] ∧
      (maildir_sync_run_model false
        (fun i _ => if i = 0 then (0, true) else (5, false))).1 =
        ((fun (i : Nat) (_ : Bool) =>
          if i = 0 then ((0 : Int), true) else (5, false)) 0 false).1) :=
  C7_sync_run_single_retry false
    (fun i _ => if i = 0 then (0, true) else (5, false))

/-- C9: the decision-string parser maps exactly `"no"`, `"temp"`, `"yes"`
(case-sensitive) to NO/TEMP/YES; every other string fails, and
`cmd_mailbox_cache_decision_init` then rejects the input with
`i_fatal_status(EX_USAGE, ...)` during parameter validation — the init
function is pure validation and opens no mailbox, cache or storage. -/
theorem C9_cache_decision_usage (s : String) (p : CacheDecisionParams)
    (hs1 : s ≠ "no") (hs2 : s ≠ "temp") (hs3 : s ≠ "yes")
    (hdec : p.decision = some s) :
    cmd_mailbox_cache_str_to_make_decision "no" =
      some MailCacheDecisionType.NO ∧
    cmd_mailbox_cache_str_to_make_decision "temp" =
      some MailCacheDecisionType.TEMP ∧
    cmd_mailbox_cache_str_to_make_decision "yes" =
      some MailCacheDecisionType.YES ∧
    cmd_mailbox_cache_str_to_make_decision s = none ∧
    cmd_mailbox_cache_decision_init p =
      Except.error (EX_USAGE,
        "Invalid decision " ++ s ++ ": must be one of yes, temp, no") := by
  have hnone : cmd_mailbox_cache_str_to_make_decision s = none := by
    unfold cmd_mailbox_cache_str_to_make_decision
    rw [if_neg hs1, if_neg hs2, if_neg hs3]
  refine ⟨by decide, by decide, by decide, hnone, ?_⟩
  unfold cmd_mailbox_cache_decision_init
  simp only [hdec, hnone]

/-- Witness for C9 at the (case-mismatching) input `"Yes"`. -/
theorem C9_cache_decision_usage_witness :
    cmd_mailbox_cache_str_to_make_decision "no" =
      some MailCacheDecisionType.NO ∧
    cmd_mailbox_cache_str_to_make_decision "temp" =
      some MailCacheDecisionType.TEMP ∧
    cmd_mailbox_cache_str_to_make_decision "yes" =
      some MailCacheDecisionType.YES ∧
    cmd_mailbox_cache_str_to_make_decision "Yes" = none ∧
    cmd_mailbox_cache_decision_init ⟨none, some "Yes", false, none, none⟩ =
      Except.error (EX_USAGE,
        "Invalid decision " ++ "Yes" ++ ": must be one of yes, temp, no") :=
  C9_cache_decision_usage "Yes" ⟨none, some "Yes", false, none, none⟩
    (by decide) (by decide) (by decide) (by decide)

/-- C6 counterexample: with the full-read (`undirty`) flag set, a header
that is non-zero, whose recorded cur mtime (seconds and nanoseconds)
equals the directory's current mtime, and whose recorded check-time is
within the `MAILDIR_SYNC_SECS` window of now, still yields
`cur_changed = true` (`WHY_DELAYEDCUR`) and the pass invokes
`maildir_scan_dir`. -/
theorem C6_quick_check_counterexample :
    maildir_sync_quick_check ⟨1, 1, 0, 100, 100, 0⟩ true false
      (some ⟨100, 0⟩) 100 = some (true, WHY_DELAYEDCUR) ∧
    (maildir_sync_context_model false true false ⟨1, 1, 0, 100, 100, 0⟩
      (some ⟨100, 0⟩) 100 false 1 1 true false false true).scanned = true := by
  exact ⟨by decide, by decide⟩

/-- C6 (amended): if additionally the sync is not forced and the full-read
(`undirty`) flag is not set, then the quick check reports
`cur_changed = false` and the pass never invokes `maildir_scan_dir`,
whatever the index/locking outcomes are. -/
theorem C6_quick_check_amended (hdr : MaildirIndexHeader) (st : StatTimes)
    (now : Nat) (very_dirty have_any : Bool) (lockRet nolockRet : Int)
    (lockedAfterInit hasNotifyCb syncing_commit indexBeginOk : Bool)
    (hnz : hdr.new_mtime ≠ 0)
    (hmtime : st.st_mtime = hdr.cur_mtime)
    (hnsec : st.st_mtime_nsec = hdr.cur_mtime_nsecs)
    (hrecent : (now : Int) - (MAILDIR_SYNC_SECS : Nat) ≤ (hdr.cur_check_time : Int)) :
    maildir_sync_quick_check hdr false very_dirty (some st) now =
      some (false, 0) ∧
    (maildir_sync_context_model false false very_dirty hdr (some st) now
      have_any lockRet nolockRet lockedAfterInit hasNotifyCb syncing_commit
      indexBeginOk).scanned = false := by
  have hd : DIR_DELAYED_REFRESH_cur hdr false now = false := by
    unfold DIR_DELAYED_REFRESH_cur
    have hc : ¬((hdr.cur_check_time : Int) <
        (now : Int) - (MAILDIR_SYNC_SECS : Nat)) := by omega
    simp [hc]
  have hm : DIR_MTIME_CHANGED_cur st hdr = false := by
    unfold DIR_MTIME_CHANGED_cur
    simp [hmtime, hnsec]
  have hq : maildir_sync_quick_check hdr false very_dirty (some st) now =
      some (false, 0) := by
    unfold maildir_sync_quick_check
    rw [if_neg hnz, hd]
    simp [hm]
  refine ⟨hq, ?_⟩
  unfold maildir_sync_context_model
  rw [hq]
  cases have_any <;>
    (simp only [Bool.false_eq_true, if_false, if_true, reduceIte]
     all_goals split_ifs <;> rfl)

/-- Witness for the amended C6. -/
theorem C6_quick_check_amended_witness :
    maildir_sync_quick_check ⟨1, 1, 0, 500, 400, 7⟩ false false
      (some ⟨400, 7⟩) 500 = some (false, 0) ∧
    (maildir_sync_context_model false false false ⟨1, 1, 0, 500, 400, 7⟩
      (some ⟨400, 7⟩) 500 true 1 1 true true false true).scanned = false :=
  C6_quick_check_amended ⟨1, 1, 0, 500, 400, 7⟩ ⟨400, 7⟩ 500 false true 1 1
    true true false true (by decide) (by decide) (by decide) (by decide)

/-- C8 counterexample: on a uidlist lock timeout the pass simply returns
0: on a forced/recursive pass it does not fail with an error, and on a
normal pass there is no lock-free re-init and no degraded-mode notice. -/
theorem C8_lock_timeout_counterexample :
    maildir_sync_context_model true false false ⟨1, 1, 0, 0, 0, 0⟩ none 0
      false 0 1 true true false true =
      ⟨some 0, false, false, false, false, false⟩ ∧
    maildir_sync_context_model false false false ⟨0, 0, 0, 0, 0, 0⟩ none 0
      false 0 1 true true false true =
      ⟨some 0, false, false, false, false, false⟩ := by
  exact ⟨by decide, by decide⟩

/-- C8 (amended): a lock *timeout* (`ret = 0`) makes the pass return 0
with no fallback and no notice; a lock *failure* (`ret < 0`) makes a
forced/recursive pass fail with an error, and otherwise falls back to the
lock-free (`NOLOCK`) re-init — failing if that fails too — marking the
pass partial when unlocked and surfacing the degraded-mode notice exactly
when the storage notification callback is set. -/
theorem C8_lock_handling_amended (undirty very_dirty have_any : Bool)
    (hdr : MaildirIndexHeader) (statCur : Option StatTimes) (now why : Nat)
    (nolockRet : Int)
    (lockedAfterInit hasNotifyCb syncing_commit indexBeginOk : Bool)
    (hq : maildir_sync_quick_check hdr undirty very_dirty statCur now =
      some (true, why)) :
    (∀ forced : Bool,
      maildir_sync_context_model forced undirty very_dirty hdr statCur now
        have_any 0 nolockRet lockedAfterInit hasNotifyCb syncing_commit
        indexBeginOk = ⟨some 0, false, false, false, false, false⟩) ∧
    (maildir_sync_context_model true undirty very_dirty hdr statCur now
        have_any (-1) nolockRet lockedAfterInit hasNotifyCb syncing_commit
        indexBeginOk = ⟨some (-1), false, false, false, false, false⟩) ∧
    (nolockRet ≤ 0 →
      maildir_sync_context_model false undirty very_dirty hdr statCur now
        have_any (-1) nolockRet lockedAfterInit hasNotifyCb syncing_commit
        indexBeginOk = ⟨some (-1), false, false, false, false, false⟩) ∧
    (0 < nolockRet → ¬(¬syncing_commit ∧ ¬indexBeginOk) →
      maildir_sync_context_model false undirty very_dirty hdr statCur now
        have_any (-1) nolockRet lockedAfterInit hasNotifyCb syncing_commit
        indexBeginOk =
      ⟨none, !lockedAfterInit, true, hasNotifyCb, lockedAfterInit, true⟩) := by
  refine ⟨?_, ?_, ?_, ?_⟩
  · intro forced
    unfold maildir_sync_context_model
    rw [hq]
    cases forced <;> simp
  · unfold maildir_sync_context_model
    rw [hq]
    simp
  · intro hno
    unfold maildir_sync_context_model
    rw [hq]
    simp [hno]
  · intro hno hidx
    unfold maildir_sync_context_model
    rw [hq]
    have hcond : (!syncing_commit && !indexBeginOk) = false := by
      cases syncing_commit <;> cases indexBeginOk <;> simp_all
    simp [hno, hcond, show ¬(nolockRet ≤ 0) by omega]

/-- Witness for the amended C8 on a first-sync header. -/
theorem C8_lock_handling_amended_witness :
    (∀ forced : Bool,
      maildir_sync_context_model forced false false ⟨0, 0, 0, 0, 0, 0⟩ none 0
        false 0 1 false true false true =
        ⟨some 0, false, false, false, false, false⟩) ∧
    (maildir_sync_context_model true false false ⟨0, 0, 0, 0, 0, 0⟩ none 0
        false (-1) 1 false true false true =
        ⟨some (-1), false, false, false, false, false⟩) ∧
    ((1 : Int) ≤ 0 →
      maildir_sync_context_model false false false ⟨0, 0, 0, 0, 0, 0⟩ none 0
        false (-1) 1 false true false true =
        ⟨some (-1), false, false, false, false, false⟩) ∧
    ((0 : Int) < 1 → ¬(¬false ∧ ¬true) →
      maildir_sync_context_model false false false ⟨0, 0, 0, 0, 0, 0⟩ none 0
        false (-1) 1 false true false true =
        ⟨none, !false, true, true, false, true⟩) :=
  C8_lock_handling_amended false false false ⟨0, 0, 0, 0, 0, 0⟩ none 0
    WHY_FIRSTSYNC 1 false true false true (by decide)

end Dovecot
